import Mathlib

/-!
Verification of the connector runtime protocol layer of the
`aloma-io/integration` SDK against its natural-language specification.

The definitions below are shallow embeddings of the source files:
  * `fetchGo` / `Fetcher.fetch` — `src/integration-sdk/src/internal/fetcher/fetcher.mts`
  * `ofetchGo` / `oauthFetch` — the `OAuthFetcher` subclass in
    `src/integration-sdk/src/internal/websocket/connection/index.mjs`
  * `OAuthClients.periodicRefresh` — the `OAuth` class, same file
  * transport queue / correlation-table / sweep — the `Transport` class, same file
  * `connLoop` — `Connection.start` together with `Registration.run`
  * `JWE.encrypt` / `JWE.decrypt` — `src/unnamed/part_005` (jose-backed JWE codec)
  * `decryptConfig` — `src/integration-sdk/src/internal/connector/server/on-connect/decrypt-config.mts`
  * `execute` / `resolveM` — `src/nodejs/src/internal/dispatcher/index.mjs`

External HTTP traffic is modelled as a list of responses consumed one per
request; timers are modelled by explicit event traces carrying the current
clock value; the `jose` encrypted-JWT library is modelled by its documented
contract (decryption succeeds exactly when the key pair, issuer, audience and
expiry all match).
-/

/-! ## Resilient fetch client (`fetcher.mts`)

`Fetcher.fetch(url, options, retries, args)` performs one HTTP request per
attempt.  A status above 399 throws an error carrying the status; the catch
block then: retries after 10 s without touching `retries` on 429; rethrows
immediately on 400/422; otherwise decrements `retries`, rethrows if the result
is `≤ 0`, and retries after 500 ms.  We model the environment as the list of
statuses the successive attempts receive, consumed front to back. -/

/-- Outcome of a `Fetcher.fetch` call against a finite response environment. -/
inductive FetchResult where
  /-- A response with status `≤ 399` was returned (the unwrapped body). -/
  | success (status : Nat)
  /-- The error carrying this HTTP status was propagated to the caller. -/
  | failure (status : Nat)
  /-- The response environment was exhausted while a request was in flight. -/
  | exhausted
deriving DecidableEq, Repr

/-- Trace of one `Fetcher.fetch` call: number of HTTP attempts actually made,
the `setTimeout` delays (ms) scheduled before each retry, and the outcome. -/
structure FTrace where
  attempts : Nat
  delays : List Nat
  result : FetchResult
deriving DecidableEq, Repr

/-- The retry loop of `Fetcher.fetch` (fetcher.mts, lines 146–164), one
recursive call per HTTP attempt.  `retries` is an `Int` because the source
decrements with `--retries` before comparing `retries <= 0`. -/
def fetchGo : List Nat → Int → FTrace
  | [], _ => { attempts := 0, delays := [], result := .exhausted }
  | s :: rest, retries =>
    if s ≤ 399 then { attempts := 1, delays := [], result := .success s }
    else if s = 429 then
      -- too many requests: `onError(e, url, options0, retries, args, true)`,
      -- i.e. retry after 10000 ms with the SAME `retries` value.
      let t := fetchGo rest retries
      { attempts := t.attempts + 1, delays := 10000 :: t.delays, result := t.result }
    else if s = 400 ∨ s = 422 then
      -- bad request: `throw e` with no retry.
      { attempts := 1, delays := [], result := .failure s }
    else if retries - 1 ≤ 0 then
      -- `--retries; if (retries <= 0) throw e;`
      { attempts := 1, delays := [], result := .failure s }
    else
      let t := fetchGo rest (retries - 1)
      { attempts := t.attempts + 1, delays := 500 :: t.delays, result := t.result }

/-- `Fetcher.fetch` entered with `retries == null`, so the budget is the
constructor's `retry` field (default 5). -/
def Fetcher.fetch (retry : Nat) (statuses : List Nat) : FTrace :=
  fetchGo statuses (retry : Int)

example : Fetcher.fetch 1 [500, 500] = { attempts := 1, delays := [], result := .failure 500 } := by
  decide

example : Fetcher.fetch 5 [400] = { attempts := 1, delays := [], result := .failure 400 } := by
  decide

example : Fetcher.fetch 2 [500, 500, 500] =
    { attempts := 2, delays := [500], result := .failure 500 } := by decide

example : Fetcher.fetch 0 [429, 429, 200] =
    { attempts := 3, delays := [10000, 10000], result := .success 200 } := by decide

/-- Helper: with a budget `k ≥ 1` and an all-500 environment of length `k + j`,
the loop makes exactly `k` attempts (the initial one plus `k - 1` retries,
each preceded by a 500 ms delay) and then propagates the 500 error. -/
theorem fetchGo_all500 (k j : Nat) (hk : 1 ≤ k) :
    fetchGo (List.replicate (k + j) 500) (k : Int) =
      { attempts := k, delays := List.replicate (k - 1) 500, result := .failure 500 } := by
  induction k generalizing j with
  | zero => omega
  | succ m ih =>
    rcases Nat.eq_or_lt_of_le hk with h1 | h1
    · -- k = 1
      have hm : m = 0 := by omega
      subst hm
      rw [show (1 + j) = j + 1 from by omega, List.replicate_succ]
      simp [fetchGo]
    · -- k = m + 1 with m ≥ 1
      have hm : 1 ≤ m := by omega
      rw [show (m + 1 + j) = (m + j) + 1 from by omega, List.replicate_succ]
      have hpos : ¬ ((m + 1 : Int) - 1 ≤ 0) := by
        have : (1 : Int) ≤ (m : Int) := by exact_mod_cast hm
        omega
      simp only [fetchGo, hpos, if_false]
      have hcast : ((m + 1 : Nat) : Int) - 1 = (m : Int) := by push_cast; ring
      rw [show ((Nat.succ m : Nat) : Int) = ((m + 1 : Nat) : Int) from rfl, hcast, ih j hm]
      have : m + 1 - 1 = (m - 1) + 1 := by omega
      simp [this, List.replicate_succ]
      omega

/-- C3 — counterexample.  The claim predicts that a budget of `N = 1` yields
`N = 1` retry, i.e. `N + 1 = 2` total attempts, on consecutive 500 responses.
The code decrements `retries` and throws as soon as the result is `≤ 0`, so a
budget of 1 makes a single attempt and never retries. -/
theorem fetch_retry_budget_counterexample :
    ¬ ((Fetcher.fetch 1 (List.replicate 2 500)).attempts = 1 + 1) := by decide

/-- C3 (amended) — with retry budget `N ≥ 1`, a run of `N + 1` consecutive 500
responses yields exactly `N` total attempts, i.e. `N - 1` retries (each after a
500 ms backoff), before the last error is propagated; the `(N+1)`-th response
is never requested.  A 400 response is propagated immediately with zero
retries, for every budget. -/
theorem fetch_retry_budget (N : Nat) (hN : 1 ≤ N) :
    Fetcher.fetch N (List.replicate (N + 1) 500) =
      { attempts := N, delays := List.replicate (N - 1) 500, result := .failure 500 }
    ∧ ∀ (M : Nat) (rest : List Nat),
        Fetcher.fetch M (400 :: rest) = { attempts := 1, delays := [], result := .failure 400 } := by
  constructor
  · exact fetchGo_all500 N 1 hN
  · intro M rest
    simp [Fetcher.fetch, fetchGo]

/-- C3 — witness: the amended theorem evaluated at budget 2 and three 500
responses: two attempts, one retry, error propagated; and 400 never retried. -/
theorem fetch_retry_budget_witness :
    1 ≤ 2 ∧
    (Fetcher.fetch 2 (List.replicate (2 + 1) 500) =
        { attempts := 2, delays := List.replicate (2 - 1) 500, result := .failure 500 }
      ∧ ∀ (M : Nat) (rest : List Nat),
          Fetcher.fetch M (400 :: rest) =
            { attempts := 1, delays := [], result := .failure 400 }) :=
  ⟨by decide, fetch_retry_budget 2 (by decide)⟩

/-- Helper: a run of `k` consecutive 429 responses is retried after a 10000 ms
delay each time and never consumes any retry budget; the budget value `B` is
passed through unchanged (even `B ≤ 0`). -/
theorem fetchGo_rateLimit_run (k : Nat) (B : Int) (rest : List Nat) :
    fetchGo (List.replicate k 429 ++ rest) B =
      { attempts := (fetchGo rest B).attempts + k,
        delays := List.replicate k 10000 ++ (fetchGo rest B).delays,
        result := (fetchGo rest B).result } := by
  induction k with
  | zero => simp
  | succ m ih =>
    rw [List.replicate_succ, List.cons_append]
    simp only [fetchGo, ih]
    norm_num [List.replicate_succ]
    omega

/-- C4 — a 429 response is retried after a fixed 10 000 ms ≥ 10 s delay and
the remaining-retries counter is not decremented, for EVERY budget value `B`
(including zero and negative): a run of `k` 429 responses followed by a
success always reaches the success with `k + 1` attempts, and a run of
only-429s never propagates a budget-exhaustion error. -/
theorem fetch_rate_limit (k : Nat) (B : Int) (s : Nat) (hs : s ≤ 399) :
    fetchGo (List.replicate k 429 ++ [s]) B =
      { attempts := k + 1, delays := List.replicate k 10000, result := .success s }
    ∧ fetchGo (List.replicate k 429) B =
      { attempts := k, delays := List.replicate k 10000, result := .exhausted }
    ∧ ∀ d ∈ (fetchGo (List.replicate k 429 ++ [s]) B).delays, 10000 ≤ d := by
  have h1 : fetchGo [s] B = { attempts := 1, delays := [], result := .success s } := by
    simp [fetchGo, hs]
  have e1 := fetchGo_rateLimit_run k B [s]
  have e2 := fetchGo_rateLimit_run k B []
  rw [h1] at e1
  refine ⟨by rw [e1]; simp [Nat.add_comm], ?_, ?_⟩
  · rw [List.append_nil] at e2
    rw [e2]; simp [fetchGo]
  · intro d hd
    rw [e1] at hd
    simp at hd
    omega

/-- C4 — witness: two 429s then a 200, with a zero budget: three attempts,
both delays equal to 10 000 ms, the budget is never exhausted. -/
theorem fetch_rate_limit_witness :
    200 ≤ 399 ∧
    (fetchGo (List.replicate 2 429 ++ [200]) 0 =
        { attempts := 2 + 1, delays := List.replicate 2 10000, result := .success 200 }
      ∧ fetchGo (List.replicate 2 429) 0 =
        { attempts := 2, delays := List.replicate 2 10000, result := .exhausted }
      ∧ ∀ d ∈ (fetchGo (List.replicate 2 429 ++ [200]) 0).delays, 10000 ≤ d) :=
  ⟨by decide, fetch_rate_limit 2 0 200 (by decide)⟩

/-! ## OAuthFetcher (`OAuthFetcher` in websocket/connection/index.mjs)

`OAuthFetcher` overrides `customize` to call `getToken(args.forceTokenRefresh)`
before every attempt (injecting the bearer token), and overrides `onError` so
that EVERY retry re-enters `fetch` with
`args = { forceTokenRefresh: e.status === 401 }`.  Token acquisition itself is
assumed to succeed (the refresh endpoint is up); the claim under test is only
about how 401 responses drive refresh-and-retry. -/

/-- Trace of one `OAuthFetcher.fetch` call: attempts made, the `force` flag
passed to `getToken` on each attempt (in order), and the outcome. -/
structure OTrace where
  attempts : Nat
  tokenCalls : List Bool
  result : FetchResult
deriving DecidableEq, Repr

/-- The `OAuthFetcher` retry loop: the same catch-block as `Fetcher.fetch`,
except that the next attempt's `forceTokenRefresh` flag is `e.status === 401`
(also in the 429 branch, whose next flag is therefore `false`). -/
def ofetchGo : List Nat → Int → Bool → OTrace
  | [], _, _ => { attempts := 0, tokenCalls := [], result := .exhausted }
  | s :: rest, retries, force =>
    if s ≤ 399 then { attempts := 1, tokenCalls := [force], result := .success s }
    else if s = 429 then
      let t := ofetchGo rest retries false
      { attempts := t.attempts + 1, tokenCalls := force :: t.tokenCalls, result := t.result }
    else if s = 400 ∨ s = 422 then
      { attempts := 1, tokenCalls := [force], result := .failure s }
    else if retries - 1 ≤ 0 then
      { attempts := 1, tokenCalls := [force], result := .failure s }
    else
      let t := ofetchGo rest (retries - 1) (s == 401)
      { attempts := t.attempts + 1, tokenCalls := force :: t.tokenCalls, result := t.result }

/-- `OAuthFetcher.fetch` entered from user code: `args = {}`, so the first
`getToken` call is unforced. -/
def oauthFetch (retry : Nat) (statuses : List Nat) : OTrace :=
  ofetchGo statuses (retry : Int) false

example : oauthFetch 5 (List.replicate 5 401) =
    { attempts := 5, tokenCalls := [false, true, true, true, true],
      result := .failure 401 } := by decide

example : oauthFetch 5 [401, 200] =
    { attempts := 2, tokenCalls := [false, true], result := .success 200 } := by decide

/-- C10 — counterexample.  With the default retry budget (5) and every
response being 401, the claim predicts exactly one forced refresh and exactly
one retry (2 attempts) before the error is propagated.  The code instead keeps
decrementing the shared retry budget and re-forcing a refresh on every 401, so
it makes 5 attempts with 4 forced refreshes. -/
theorem oauth_401_retry_counterexample :
    oauthFetch 5 (List.replicate 5 401) =
      { attempts := 5, tokenCalls := [false, true, true, true, true], result := .failure 401 }
    ∧ ¬ ((oauthFetch 5 (List.replicate 5 401)).attempts = 2)
    ∧ ¬ ((oauthFetch 5 (List.replicate 5 401)).tokenCalls.count true = 1) := by decide

/-- Helper: entered with `force = true` and `k ≥ 1` remaining 401 responses
against a budget of exactly `k`, every attempt calls `getToken true` and the
401 is propagated when the budget runs out. -/
theorem ofetchGo_all401_forced (k : Nat) (hk : 1 ≤ k) :
    ofetchGo (List.replicate k 401) (k : Int) true =
      { attempts := k, tokenCalls := List.replicate k true, result := .failure 401 } := by
  induction k with
  | zero => omega
  | succ m ih =>
    rcases Nat.eq_or_lt_of_le hk with h1 | h1
    · have hm : m = 0 := by omega
      subst hm
      simp [ofetchGo, List.replicate_succ]
    · have hm : 1 ≤ m := by omega
      have hmpos : ¬ ((m : Int) ≤ 0) := by
        have : (1 : Int) ≤ (m : Int) := by exact_mod_cast hm
        omega
      rw [List.replicate_succ]
      simp only [ofetchGo]
      norm_num [hmpos]
      rw [ih hm]
      norm_num [List.replicate_succ]

/-- C10 (amended) — every 401 received through an `OAuthFetcher` decrements
the shared retry budget and forces a token refresh before the NEXT attempt;
this repeats while budget remains.  With budget `N ≥ 1` and all responses 401,
the client makes `N` attempts: the first token fetch is unforced and each of
the `N - 1` retries is preceded by a forced refresh; only when the budget is
exhausted is the 401 propagated.  (The claim's "exactly one refresh and one
retry" holds only for the special budget `N = 2`, not for the default 5.) -/
theorem oauth_401_retry (N : Nat) (hN : 1 ≤ N) :
    oauthFetch N (List.replicate N 401) =
      { attempts := N, tokenCalls := false :: List.replicate (N - 1) true,
        result := .failure 401 } := by
  rcases Nat.eq_or_lt_of_le hN with h1 | h1
  · subst h1
    simp [oauthFetch, ofetchGo, List.replicate_succ]
  · obtain ⟨m, rfl⟩ : ∃ m, N = m + 1 := ⟨N - 1, by omega⟩
    have hm : 1 ≤ m := by omega
    have hmpos : ¬ ((m : Int) ≤ 0) := by
      have : (1 : Int) ≤ (m : Int) := by exact_mod_cast hm
      omega
    rw [oauthFetch, List.replicate_succ]
    simp only [ofetchGo]
    norm_num [hmpos]
    rw [ofetchGo_all401_forced m hm]
    norm_num

/-- C10 — witness: the amended theorem at budget 3 with three 401 responses:
three attempts, token calls `[false, true, true]` (two forced refreshes), then
the 401 is propagated. -/
theorem oauth_401_retry_witness :
    1 ≤ 3 ∧
    oauthFetch 3 (List.replicate 3 401) =
      { attempts := 3, tokenCalls := false :: List.replicate (3 - 1) true,
        result := .failure 401 } :=
  ⟨by decide, oauth_401_retry 3 (by decide)⟩

/-! ## OAuth periodic refresh (`OAuth.periodicRefresh`, `makeOAuth`)

`OAuth.periodicRefresh` iterates `for (let i = 0; i < clients.length; ++i)`
but reads `const client = clients[0]` in the loop body, and the interval
installed by `makeOAuth` (src/unnamed/part_007, lines 89–105) uses
`dispatcher._oauth.tokenRefreshPeriod || 4 * 60 * 60 * 15000` milliseconds. -/

namespace OAuthClients

/-- The sequence of clients on which `client.periodicRefresh()` is awaited by
one firing of `OAuth.periodicRefresh` (clients identified by position-stable
ids; `clients[0]` of an empty list is never read because the loop body does
not run).  Mirrors the source loop, `clients[0]` included. -/
def periodicRefresh (clients : List Nat) : List Nat :=
  (List.range clients.length).map (fun _ => clients.headD 0)

/-- What the spec sentence describes: one firing proactively refreshes every
live client sharing the session, each exactly once, in order. -/
def periodicRefreshPerSpec (clients : List Nat) : List Nat := clients

/-- The default interval period from `makeOAuth`:
`4 * 60 * 60 * 15000` ms. -/
def defaultTokenRefreshPeriod : Nat := 4 * 60 * 60 * 15000

end OAuthClients

/-- C8 — the code evaluated at the failing input.  With two live clients
`[10, 20]`, one firing of `OAuth.periodicRefresh` refreshes client 10 twice
and never refreshes client 20 (the loop body reads `clients[0]` instead of
`clients[i]`), contradicting "refreshes every live client sharing the OAuth
session".  Moreover the default timer period is `4 * 60 * 60 * 15000` ms =
216 000 000 ms = 60 hours, not ≈ 4 hours (= 14 400 000 ms). -/
theorem oauth_periodic_refresh_code_bug :
    OAuthClients.periodicRefresh [10, 20] = [10, 10]
    ∧ OAuthClients.periodicRefresh [10, 20] ≠ OAuthClients.periodicRefreshPerSpec [10, 20]
    ∧ ¬ (20 ∈ OAuthClients.periodicRefresh [10, 20])
    ∧ OAuthClients.defaultTokenRefreshPeriod = 216000000
    ∧ OAuthClients.defaultTokenRefreshPeriod ≠ 4 * 60 * 60 * 1000 := by decide

/-! ## Connection handshake loop (`Connection.start`, `Registration.run`)

`Connection.start` POSTs to `{endpoint}connect`; on 401 it runs
`Registration.run` (which POSTs to `{endpoint}register`, returns the session
key on 200 and throws `authentication failed` otherwise) and then recurses; on
200 it hands off to the transport; on any other status — and in the catch
block that also receives the registration throw — it schedules `start` again
after 5000 ms.  The environment is the list of successive HTTP results
(`some status`, or `none` for a network error), consumed one per request. -/

/-- Observable steps of the handshake loop. -/
inductive CStep where
  /-- `setTimeout(() => local.start(), 5000)` was scheduled. -/
  | retryScheduled
  /-- Registration returned 200: `config.setToken(...)` ran. -/
  | registered
  /-- Connect returned 200: `onStart` ran, transport takes over. -/
  | connected
deriving DecidableEq, Repr

/-- The handshake loop of `Connection.start` (connection/index.mjs, lines
10–43) driven by a finite list of HTTP results; an empty list means the
process is still awaiting a response. -/
def connLoop : List (Option Nat) → List CStep
  | [] => []
  | r :: rest =>
    match r with
    | some 401 =>
      match rest with
      | [] => []
      | some 200 :: rest2 => CStep.registered :: connLoop rest2
      | _ :: rest2 => CStep.retryScheduled :: connLoop rest2
    | some 200 => [CStep.connected]
    | _ => CStep.retryScheduled :: connLoop rest

example : connLoop [some 401, some 200, some 200] =
    [CStep.registered, CStep.connected] := by decide

/-- C7 — counterexample.  Connect gets 401, registration responds 403
(non-200): `Registration.run` throws `authentication failed`, but
`Connection.start`'s catch block swallows it and schedules a retry after 5 s;
the subsequent round registers and connects.  The connector therefore DOES
keep re-attempting the connect/register cycle after a failed registration,
contradicting "fatal ... does not keep re-attempting". -/
theorem registration_failure_counterexample :
    connLoop [some 401, some 403, some 401, some 200, some 200] =
      [CStep.retryScheduled, CStep.registered, CStep.connected]
    ∧ CStep.connected ∈ connLoop [some 401, some 403, some 401, some 200, some 200]
    ∧ CStep.registered ∈ connLoop [some 401, some 403, some 401, some 200, some 200] := by
  decide

/-- C7 (amended) — a non-200 registration response makes `Registration.run`
throw an authentication error, but the throw is swallowed by the catch block
of `Connection.start`, which schedules the whole connect/register cycle again
after 5 seconds: `n` consecutive rounds of (connect → 401, register → 500)
produce `n` scheduled retries, and a subsequent successful round still
registers and connects.  The failure is NOT fatal and the cycle is re-entered
indefinitely. -/
theorem registration_failure_retried (n : Nat) (tail : List (Option Nat)) :
    connLoop ((List.replicate n [some 401, some 500]).flatten
        ++ [some 401, some 200, some 200] ++ tail) =
      List.replicate n CStep.retryScheduled ++ [CStep.registered, CStep.connected] := by
  induction n with
  | zero => simp [connLoop]
  | succ m ih =>
    have hshape : (List.replicate (m + 1) [some 401, some 500]).flatten
        ++ [some 401, some 200, some 200] ++ tail
        = some 401 :: some 500 :: ((List.replicate m [(some 401 : Option Nat), some 500]).flatten
            ++ [some 401, some 200, some 200] ++ tail) := by
      simp [List.replicate_succ]
    rw [hshape,
      show ∀ L, connLoop (some 401 :: some 500 :: L) = CStep.retryScheduled :: connLoop L
        from fun L => rfl,
      ih, List.replicate_succ, List.cons_append]

/-! ## Transport send queue (`Transport` in websocket/connection/index.mjs)

`send(packet)` pushes onto `this.packets` and schedules a flush on the next
tick.  `schedule0` returns immediately when the queue is empty or the socket
is not connected; otherwise it shifts every queued packet, collecting
`packet.data` into a batch, sends the batch in one frame, and — if the socket
send throws — pushes each batch element back with
`packets.forEach((packet) => local.packets.unshift(packet))`.  Note that the
re-queued values are the raw `data` objects, not the `Packet` wrappers, and
that repeated `unshift` reverses the batch. -/

/-- A wire packet wrapper; `data` is the payload object (identified by id). -/
structure WirePacket where
  data : Nat
deriving DecidableEq, Repr

/-- An entry of `Transport.packets`.  Normally a `Packet` wrapper; after a
failed flush the queue instead holds the raw batch values (`packet.data`
results, possibly `undefined`). -/
inductive QEntry where
  /-- A `Packet` object (as pushed by `Transport.send`). -/
  | pkt (p : WirePacket)
  /-- A raw payload object re-queued by the failed-send path. -/
  | raw (d : Nat)
  /-- A re-queued `undefined`. -/
  | jsUndefined
deriving DecidableEq, Repr

/-- JavaScript `packet.data` on a queue entry: a `Packet` yields its payload;
a raw payload object has no `data` property, so the access yields
`undefined` (`none`). -/
def QEntry.dataOf : QEntry → Option Nat
  | .pkt p => some p.data
  | .raw _ => none
  | .jsUndefined => none

/-- The drain loop `while ((packet = local.packets.shift())) packets.push(packet.data)`:
every entry is shifted and its `.data` collected, except that a falsy entry
(`undefined`) stops the loop after being shifted. -/
def drainQueue : List QEntry → List (Option Nat) × List QEntry
  | [] => ([], [])
  | .jsUndefined :: rest => ([], rest)
  | e :: rest =>
    let br := drainQueue rest
    (QEntry.dataOf e :: br.1, br.2)

/-- Re-queue value → queue entry: `unshift`ing a batch element puts the raw
payload (or `undefined`) back into the packet queue. -/
def toQEntry : Option Nat → QEntry
  | some d => .raw d
  | none => .jsUndefined

/-- Transport state relevant to the send path: the outbound queue, the
connection flag, and the frames that actually reached the socket. -/
structure TransportQ where
  packets : List QEntry
  connected : Bool
  sent : List (List (Option Nat))
deriving DecidableEq, Repr

/-- `Transport.schedule0` (lines 105–124): no-op when the queue is empty or
the socket is disconnected; otherwise drain the queue into one batch and send
it as a single frame; if the socket send fails, `unshift` every batch element
back onto the front of the queue. -/
def schedule0 (sendOk : Bool) (st : TransportQ) : TransportQ :=
  if st.packets.isEmpty || !st.connected then st
  else
    let br := drainQueue st.packets
    if br.1.isEmpty then { st with packets := br.2 }
    else if sendOk then { st with packets := br.2, sent := st.sent ++ [br.1] }
    else { st with packets := br.1.foldl (fun q x => toQEntry x :: q) br.2 }

/-- `Transport.send` (lines 176–181): push the packet, schedule a flush. -/
def transportSend (st : TransportQ) (p : WirePacket) : TransportQ :=
  { st with packets := st.packets ++ [.pkt p] }

/-- Send-path operations interleaved by the event loop: a `send` call, or a
scheduled `schedule0` tick whose socket send succeeds or fails. -/
inductive QOp where
  | send (d : Nat)
  | flush (sendOk : Bool)
deriving DecidableEq, Repr

/-- Run a sequence of send-path operations. -/
def runQ (st : TransportQ) : List QOp → TransportQ
  | [] => st
  | .send d :: rest => runQ (transportSend st ⟨d⟩) rest
  | .flush ok :: rest => runQ (schedule0 ok st) rest

/-- The payloads sent (in order) by a list of operations. -/
def sendsOf : List QOp → List Nat
  | [] => []
  | .send d :: rest => d :: sendsOf rest
  | .flush _ :: rest => sendsOf rest

example : (runQ ⟨[], false, []⟩ [.send 1, .flush true, .send 2]).sent = [] := by decide

example : (schedule0 true ⟨[.pkt ⟨1⟩, .pkt ⟨2⟩], true, []⟩).sent = [[some 1, some 2]] := by
  decide

example : (schedule0 false ⟨[.pkt ⟨1⟩, .pkt ⟨2⟩], true, []⟩).packets = [.raw 2, .raw 1] := by
  decide

/-- C5 — counterexample.  Two packets with payloads 1 and 2 are queued in that
order and a connected flush's socket send fails.  The claim says the batch is
re-queued at the front with its order preserved, i.e. the queue again holds
payloads `[1, 2]`; the repeated `unshift` instead leaves them reversed
(`[2, 1]`, and as raw data objects rather than `Packet` wrappers). -/
theorem requeue_order_counterexample :
    (schedule0 false ⟨[.pkt ⟨1⟩, .pkt ⟨2⟩], true, []⟩).packets ≠ [.raw 1, .raw 2]
    ∧ (schedule0 false ⟨[.pkt ⟨1⟩, .pkt ⟨2⟩], true, []⟩).packets = [.raw 2, .raw 1]
    ∧ (schedule0 false ⟨[.pkt ⟨1⟩, .pkt ⟨2⟩], true, []⟩).packets
      ≠ [.pkt ⟨1⟩, .pkt ⟨2⟩] := by decide

/-- While the transport is disconnected, any interleaving of `send` calls and
flush ticks leaves the socket untouched and accumulates the packets in the
queue in enqueue order. -/
theorem runQ_disconnected (ops : List QOp) (st : TransportQ) (hc : st.connected = false) :
    runQ st ops =
      { packets := st.packets ++ (sendsOf ops).map (fun d => .pkt ⟨d⟩),
        connected := false, sent := st.sent } := by
  induction ops generalizing st with
  | nil =>
    simp [runQ, sendsOf, ← hc]
  | cons op rest ih =>
    cases op with
    | send d =>
      rw [runQ, ih (transportSend st ⟨d⟩) hc]
      simp [transportSend, sendsOf, hc]
    | flush ok =>
      have hnoop : schedule0 ok st = st := by
        simp [schedule0, hc]
      rw [runQ, hnoop, ih st hc, sendsOf]

/-- Draining a queue of `Packet` wrappers collects every payload, in order,
and leaves the queue empty. -/
theorem drainQueue_pkts (ps : List Nat) :
    drainQueue (ps.map (fun d => .pkt ⟨d⟩)) = (ps.map some, []) := by
  induction ps with
  | nil => rfl
  | cons d rest ih =>
    simp only [List.map_cons, drainQueue, ih, QEntry.dataOf]

/-- The `forEach`/`unshift` re-queue is a left fold that reverses the batch in
front of the remaining queue. -/
theorem foldl_unshift (l : List (Option Nat)) (acc : List QEntry) :
    l.foldl (fun q x => toQEntry x :: q) acc = (l.map toQEntry).reverse ++ acc := by
  induction l generalizing acc with
  | nil => rfl
  | cons x rest ih =>
    simp [List.foldl_cons, ih]

/-- C5 (amended) — packets handed to `Transport.send` while the socket is
disconnected all stay in the outbound queue and none reaches the socket; after
reconnection a flush whose socket send succeeds emits exactly those payloads
in the original enqueue order as one frame.  However, when the flush's socket
send FAILS, the batch is pushed back element-by-element with `unshift`, so it
is re-queued at the front in REVERSED order — and as raw `data` objects rather
than `Packet` wrappers — contradicting the claim's "with its order preserved". -/
theorem transport_queue_order (ops : List QOp) (s0 : List (List (Option Nat)))
    (hne : sendsOf ops ≠ []) :
    (runQ ⟨[], false, s0⟩ ops).sent = s0
    ∧ (runQ ⟨[], false, s0⟩ ops).packets = (sendsOf ops).map (fun d => .pkt ⟨d⟩)
    ∧ (schedule0 true { runQ ⟨[], false, s0⟩ ops with connected := true }).sent
        = s0 ++ [(sendsOf ops).map some]
    ∧ (schedule0 true { runQ ⟨[], false, s0⟩ ops with connected := true }).packets = []
    ∧ (schedule0 false { runQ ⟨[], false, s0⟩ ops with connected := true }).packets
        = ((sendsOf ops).map QEntry.raw).reverse
    ∧ (schedule0 false { runQ ⟨[], false, s0⟩ ops with connected := true }).sent = s0 := by
  have h1 := runQ_disconnected ops ⟨[], false, s0⟩ rfl
  simp only [List.nil_append] at h1
  have hmapne : ((sendsOf ops).map (fun d => QEntry.pkt ⟨d⟩)).isEmpty = false := by
    cases hso : sendsOf ops with
    | nil => exact absurd hso hne
    | cons a l => simp
  have hdrain := drainQueue_pkts (sendsOf ops)
  have hbatchne : ((sendsOf ops).map some).isEmpty = false := by
    cases hso : sendsOf ops with
    | nil => exact absurd hso hne
    | cons a l => simp
  refine ⟨by rw [h1], by rw [h1], ?_, ?_, ?_, ?_⟩
  · rw [h1]
    simp only [schedule0, hmapne, Bool.not_true, Bool.or_false, if_false, hdrain, hbatchne,
      Bool.false_or]
    simp
  · rw [h1]
    simp only [schedule0, hmapne, Bool.not_true, Bool.or_false, if_false, hdrain, hbatchne,
      Bool.false_or]
    simp
  · rw [h1]
    simp only [schedule0, hmapne, Bool.not_true, Bool.or_false, if_false, hdrain, hbatchne,
      Bool.false_or]
    rw [foldl_unshift]
    simp [toQEntry]
  · rw [h1]
    simp only [schedule0, hmapne, Bool.not_true, Bool.or_false, if_false, hdrain, hbatchne,
      Bool.false_or]
    simp

/-- C5 — witness: the theorem at `ops = [send 1, flush true, send 2]` while
disconnected (the flush tick is a no-op): nothing is sent, the queue holds
`[1, 2]` in order; a successful post-reconnect flush emits `[some 1, some 2]`
as one frame; a failed one leaves the queue `[raw 2, raw 1]`. -/
theorem transport_queue_order_witness :
    sendsOf [.send 1, .flush true, .send 2] ≠ [] ∧
    ((runQ ⟨[], false, []⟩ [.send 1, .flush true, .send 2]).sent = []
    ∧ (runQ ⟨[], false, []⟩ [.send 1, .flush true, .send 2]).packets
        = (sendsOf [.send 1, .flush true, .send 2]).map (fun d => .pkt ⟨d⟩)
    ∧ (schedule0 true { runQ ⟨[], false, []⟩ [.send 1, .flush true, .send 2] with
          connected := true }).sent
        = [] ++ [(sendsOf [.send 1, .flush true, .send 2]).map some]
    ∧ (schedule0 true { runQ ⟨[], false, []⟩ [.send 1, .flush true, .send 2] with
          connected := true }).packets = []
    ∧ (schedule0 false { runQ ⟨[], false, []⟩ [.send 1, .flush true, .send 2] with
          connected := true }).packets
        = ((sendsOf [.send 1, .flush true, .send 2]).map QEntry.raw).reverse
    ∧ (schedule0 false { runQ ⟨[], false, []⟩ [.send 1, .flush true, .send 2] with
          connected := true }).sent = []) :=
  ⟨by decide, transport_queue_order [.send 1, .flush true, .send 2] [] (by decide)⟩

/-! ## Dispatcher query resolution (`nodejs/src/internal/dispatcher/index.mjs`)

`execute({query, variables})` filters the query segments — keeping only those
with non-blank trim that are NOT in the denylist
`["constructor", "__proto__", "toString", "toSource", "prototype"]` — caps the
result at 20 segments, walks the resolver table with `resolveMethod`, and
invokes the resolved function (or `__default`, or throws `not found`).
Handlers are identified by numeric ids; invoking a non-function value is a
JavaScript `TypeError`. -/

/-- A resolver-table value: either a callable handler or a nested object of
further resolvers. -/
inductive RTree where
  | leaf (h : Nat)
  | node (children : List (String × RTree))

/-- First-match association lookup (JavaScript own-property access on an
object literal, whose keys are unique). -/
def lookupKV {α : Type} : List (String × α) → String → Option α
  | [], _ => none
  | (k', v) :: rest, k => if k' = k then some v else lookupKV rest k

/-- Property access `current[segment]`: a function (leaf) has no own data
properties, so the access yields `undefined`. -/
def childOf : RTree → String → Option RTree
  | .leaf _, _ => none
  | .node cs, k => lookupKV cs k

/-- `resolveMethod` (lines 148–156): `while (query.length && current) current
= current[query.shift()]; return current`. -/
def resolveM : Option RTree → List String → Option RTree
  | cur, [] => cur
  | none, _ :: _ => none
  | some t, k :: rest => resolveM (childOf t k) rest

/-- The reserved/unsafe path segments stripped by `execute`. -/
def segmentDenylist : List String :=
  ["constructor", "__proto__", "toString", "toSource", "prototype"]

/-- JavaScript `String.prototype.trim`: strip whitespace from both ends. -/
def jsTrim (s : String) : String :=
  ⟨((s.toList.dropWhile Char.isWhitespace).reverse.dropWhile Char.isWhitespace).reverse⟩

/-- The filter-and-cap prelude of `execute` (lines 161–173): keep segments
whose trim is non-blank and that are not denylisted, then `slice(0, 20)`. -/
def sanitizeQuery (q : List String) : List String :=
  (q.filter (fun w => (jsTrim w != "") && !(segmentDenylist.contains w))).take 20

/-- Result of `execute`. -/
inductive ExecResult where
  /-- The resolved handler was invoked. -/
  | invoked (h : Nat)
  /-- No handler matched; `__default` was invoked with `__method` set. -/
  | invokedDefault (h : Nat) (q : List String)
  /-- `throw new Error(query + " not found")`. -/
  | errNotFound (q : List String)
  /-- The resolved value is not callable: JavaScript `TypeError`. -/
  | errNotCallable
deriving DecidableEq, Repr

/-- `execute` (lines 158–184) on a resolver table. -/
def execute (resolvers : List (String × RTree)) (query : List String) : ExecResult :=
  let q := sanitizeQuery query
  match resolveM (some (.node resolvers)) q with
  | some (.leaf h) => .invoked h
  | some (.node _) => .errNotCallable
  | none =>
    match lookupKV resolvers "__default" with
    | some (.leaf h) => .invokedDefault h q
    | some (.node _) => .errNotCallable
    | none => .errNotFound q

/-- Whether an `execute` outcome is an error rather than a handler call. -/
def ExecResult.isError : ExecResult → Bool
  | .errNotFound _ => true
  | .errNotCallable => true
  | _ => false

/-- Demo resolver table with a nested handler at `companies.getPage`. -/
def demoResolvers : List (String × RTree) :=
  [("companies", .node [("getPage", .leaf 7)])]

example : execute demoResolvers ["companies", "getPage"] = .invoked 7 := by rfl

/-- C6 — counterexample.  The claim says every query path containing
`"__proto__"` or `"constructor"` is rejected with an error rather than being
resolved to any handler.  `execute` instead FILTERS those segments out and
resolves the remaining path: `["companies", "__proto__", "getPage"]` (and
likewise with `"constructor"`) invokes the `companies.getPage` handler. -/
theorem dispatcher_unsafe_segment_counterexample :
    execute demoResolvers ["companies", "__proto__", "getPage"] = .invoked 7
    ∧ (execute demoResolvers ["companies", "__proto__", "getPage"]).isError = false
    ∧ execute demoResolvers ["companies", "constructor", "getPage"] = .invoked 7 := by
  constructor
  · rfl
  · constructor
    · rfl
    · rfl

/-- C6 (amended) — for any resolver table with a nested handler under
`companies.getPage`, `execute` with query `["companies", "getPage"]` invokes
exactly that handler.  A path containing `"__proto__"` or `"constructor"` is
NOT rejected: those segments are silently removed before resolution (so the
prototype chain is never walked), and the remaining path is resolved normally
— `["companies", "__proto__", "getPage"]` invokes the same handler. -/
theorem dispatcher_query_resolution (cs ts : List (String × RTree)) (h : Nat)
    (h1 : lookupKV cs "companies" = some (.node ts))
    (h2 : lookupKV ts "getPage" = some (.leaf h)) :
    execute cs ["companies", "getPage"] = .invoked h
    ∧ execute cs ["companies", "__proto__", "getPage"] = .invoked h := by
  have hs1 : sanitizeQuery ["companies", "getPage"] = ["companies", "getPage"] := by decide
  have hs2 : sanitizeQuery ["companies", "__proto__", "getPage"]
      = ["companies", "getPage"] := by decide
  constructor
  · rw [execute]
    simp only [hs1, resolveM, childOf, h1, h2]
  · rw [execute]
    simp only [hs2, resolveM, childOf, h1, h2]

/-- C6 — witness: the amended theorem applied to the demo table. -/
theorem dispatcher_query_resolution_witness :
    lookupKV demoResolvers "companies" = some (.node [("getPage", .leaf 7)])
    ∧ lookupKV [("getPage", RTree.leaf 7)] "getPage" = some (.leaf 7)
    ∧ execute demoResolvers ["companies", "getPage"] = .invoked 7
    ∧ execute demoResolvers ["companies", "__proto__", "getPage"] = .invoked 7 :=
  ⟨rfl, rfl,
    dispatcher_query_resolution demoResolvers [("getPage", .leaf 7)] 7 rfl rfl⟩

/-! ## Secret codec (`JWE` in src/unnamed/part_005)

`JWE.encrypt(what, expiration, audience)` builds
`new jose.EncryptJWT({_data: {...what}})` with issuer `home.aloma.io` and the
given audience, sets an expiration unless it is `"none"`/empty, and encrypts
under the pair's public key.  `JWE.decrypt(what, audience)` runs
`jose.jwtDecrypt` with the pair's private key and `{issuer, audience}` checks
and returns `payload._data`.  The `jose` library is modelled by its
documented contract: decryption succeeds exactly when the token was encrypted
under the matching key pair and issuer, audience and expiry all verify.
JSON values model the JavaScript payloads; the object spread `{...what}`
keeps an object's own properties, turns arrays and strings into index-keyed
objects, and turns all other primitives into `{}`. -/

/-- A JSON value (the JSON-serializable JavaScript values). -/
inductive JVal where
  | jnull
  | jbool (b : Bool)
  | jnum (n : Int)
  | jstr (s : String)
  | jarr (xs : List JVal)
  | jobj (fs : List (String × JVal))

/-- JavaScript object spread `{...v}`: own enumerable properties of `v`. -/
def jsSpread : JVal → List (String × JVal)
  | .jobj fs => fs
  | .jarr xs => xs.enum.map (fun p => (toString p.1, p.2))
  | .jstr s => s.toList.enum.map (fun p => (toString p.1, .jstr (toString p.2)))
  | _ => []

/-- An encrypted JWT as produced by `jose.EncryptJWT...encrypt(publicKey)`:
the `_data` claim, the registered claims, and the key pair (identified by an
id) whose public half encrypted it. -/
structure EncToken where
  tdata : List (String × JVal)
  iss : String
  aud : String
  iat : Nat
  exp : Option Nat
  encKey : Nat

/-- The fixed issuer identity of the codec. -/
def jweIssuer : String := "home.aloma.io"

/-- `JWE.encrypt` (part_005, lines 50–60) at clock `now`, under key pair
`pairKey`.  `expiration` is `none` for `"none"`/empty (no `exp` claim,
durable token) and `some d` for a duration string worth `d` ms. -/
def JWE.encrypt (pairKey now : Nat) (what : JVal) (expiration : Option Nat)
    (audience : String) : EncToken :=
  { tdata := jsSpread what, iss := jweIssuer, aud := audience, iat := now,
    exp := expiration.map (fun d => now + d), encKey := pairKey }

/-- The `jose.jwtDecrypt` verification: correct private key, issuer and
audience match, token not expired at `now`. -/
def tokenValid (t : EncToken) (privKey : Nat) (issuer audience : String) (now : Nat) : Bool :=
  t.encKey == privKey && t.iss == issuer && t.aud == audience &&
    (match t.exp with
     | none => true
     | some e => decide (now < e))

/-- `jose.jwtDecrypt(what, privateKey, {issuer, audience})`: the verified
claims, or a decryption error (`none`). -/
def joseJwtDecrypt (t : EncToken) (privKey : Nat) (issuer audience : String)
    (now : Nat) : Option (List (String × JVal)) :=
  if tokenValid t privKey issuer audience now then some t.tdata else none

/-- `JWE.decrypt` (part_005, lines 62–73): verify and return `payload._data`. -/
def JWE.decrypt (pairKey now : Nat) (t : EncToken) (audience : String) : Option JVal :=
  (joseJwtDecrypt t pairKey jweIssuer audience now).map JVal.jobj

example : JWE.decrypt 0 5 (JWE.encrypt 0 5 (.jobj [("a", .jnum 1)]) none "c1") "c1"
    = some (.jobj [("a", .jnum 1)]) := rfl

example : JWE.decrypt 0 5 (JWE.encrypt 0 5 (.jobj [("a", .jnum 1)]) none "c1") "c2"
    = none := rfl

/-- C1 — counterexample.  The claim quantifies over every JSON-serializable
payload, but `encrypt` wraps the payload in an object spread
(`{_data: {...what}}`): for the number payload `42` the spread is `{}`, so the
round trip returns the empty object, not `42`. -/
theorem jwe_roundtrip_counterexample :
    JWE.decrypt 0 0 (JWE.encrypt 0 0 (JVal.jnum 42) none "c1") "c1" ≠ some (JVal.jnum 42) := by
  intro h
  have h' : JVal.jobj [] = JVal.jnum 42 := Option.some.inj h
  exact JVal.noConfusion h'

/-- C1 (amended) — for every JSON OBJECT payload (the spread `{...payload}`
preserves exactly an object's own properties), every key pair, every
expiration that is `"none"` or a positive duration, and matching audience,
`decrypt(encrypt(payload, exp, aud), aud)` at the same clock returns the
payload; decrypting the same token with any other audience fails with a
decryption error (`none`).  For non-object payloads (numbers, strings,
booleans, null, arrays) the round trip does not return the payload. -/
theorem jwe_roundtrip (pairKey now : Nat) (fs : List (String × JVal))
    (expiration : Option Nat) (a a' : String)
    (hexp : expiration = none ∨ ∃ d, expiration = some d ∧ 0 < d)
    (haud : a' ≠ a) :
    JWE.decrypt pairKey now (JWE.encrypt pairKey now (.jobj fs) expiration a) a
      = some (.jobj fs)
    ∧ JWE.decrypt pairKey now (JWE.encrypt pairKey now (.jobj fs) expiration a) a'
      = none := by
  have hvalid : tokenValid (JWE.encrypt pairKey now (.jobj fs) expiration a)
      pairKey jweIssuer a now = true := by
    rcases hexp with h | ⟨d, hd, hdpos⟩
    · subst h
      simp [tokenValid, JWE.encrypt]
    · subst hd
      simp [tokenValid, JWE.encrypt, Option.map_some, hdpos]
  have hbad : tokenValid (JWE.encrypt pairKey now (.jobj fs) expiration a)
      pairKey jweIssuer a' now = false := by
    have : ((JWE.encrypt pairKey now (.jobj fs) expiration a).aud == a') = false := by
      simp [JWE.encrypt]
      exact fun h => haud h.symm
    simp [tokenValid, this]
  constructor
  · rw [JWE.decrypt, joseJwtDecrypt, hvalid]
    simp [JWE.encrypt, jsSpread]
  · rw [JWE.decrypt, joseJwtDecrypt, hbad]
    simp

/-- C1 — witness: key pair 0 at clock 1000, object payload
`{x: "v"}`, a seven-day expiration, audience `"c1"`, wrong audience `"c2"`. -/
theorem jwe_roundtrip_witness :
    ((some 604800000 : Option Nat) = none
      ∨ ∃ d, (some 604800000 : Option Nat) = some d ∧ 0 < d)
    ∧ ("c2" : String) ≠ "c1"
    ∧ (JWE.decrypt 0 1000 (JWE.encrypt 0 1000 (.jobj [("x", .jstr "v")])
          (some 604800000) "c1") "c1" = some (.jobj [("x", .jstr "v")])
      ∧ JWE.decrypt 0 1000 (JWE.encrypt 0 1000 (.jobj [("x", .jstr "v")])
          (some 604800000) "c1") "c2" = none) :=
  ⟨Or.inr ⟨604800000, rfl, by decide⟩, by decide,
    jwe_roundtrip 0 1000 [("x", .jstr "v")] (some 604800000) "c1" "c2"
      (Or.inr ⟨604800000, rfl, by decide⟩) (by decide)⟩

/-! ## Per-field config decryption (`decrypt-config.mts`)

`decryptConfig({configSchema, config, secrets})` walks the own keys of
`secrets` in order; a falsy value is skipped; a key whose schema field has
`plain` set — or that is on the fixed allow-list `["endpointUrl"]` — is copied
verbatim; any other value is passed to `jwe.decrypt(value, config.id())`
inside a `try`, the plaintext stored on success and the key silently skipped
(only logged) on failure.  The whole loop throws nothing. -/

/-- A secret-bundle value as the connector receives it: absent/falsy, a plain
string, an encrypted token, or (in the output) a decrypted plaintext object. -/
inductive BundleVal where
  | vnull
  | vstr (s : String)
  | vtok (t : EncToken)
  | vobj (fs : List (String × JVal))

/-- JavaScript truthiness test `if (!value) continue` on a bundle value. -/
def BundleVal.isFalsy : BundleVal → Bool
  | .vnull => true
  | _ => false

/-- `jwe.decrypt(value, audience)` on a bundle value: a non-token value is a
malformed JWE and throws (`none`). -/
def tryDecryptVal (pairKey now : Nat) (v : BundleVal) (audience : String) :
    Option (List (String × JVal)) :=
  match v with
  | .vtok t => joseJwtDecrypt t pairKey jweIssuer audience now
  | _ => none

/-- Schema lookup `fields[key]?.plain` — `false` when the field is absent.
The schema is modelled as the per-field `plain` flags. -/
def isPlainKey (fields : List (String × Bool)) (k : String) : Bool :=
  ((lookupKV fields k).getD false) || (["endpointUrl"].contains k)

/-- `decryptConfig` (decrypt-config.mts, lines 2–27): the loop over the
bundle's keys, accumulating the `decrypted` object. -/
def decryptConfig (fields : List (String × Bool)) (pairKey now : Nat) (connId : String)
    (secrets : List (String × BundleVal)) : List (String × BundleVal) :=
  secrets.foldl (fun acc kv =>
    if kv.2.isFalsy then acc
    else if isPlainKey fields kv.1 then acc ++ [(kv.1, kv.2)]
    else
      match tryDecryptVal pairKey now kv.2 connId with
      | some fs => acc ++ [(kv.1, .vobj fs)]
      | none => acc) []

/-- The per-field outcome of the `decryptConfig` loop. -/
def perFieldDec (fields : List (String × Bool)) (pairKey now : Nat) (connId : String)
    (kv : String × BundleVal) : Option (String × BundleVal) :=
  if kv.2.isFalsy then none
  else if isPlainKey fields kv.1 then some (kv.1, kv.2)
  else
    match tryDecryptVal pairKey now kv.2 connId with
    | some fs => some (kv.1, .vobj fs)
    | none => none

/-- The loop is the `filterMap` of the per-field outcome (with the fold
accumulator made explicit). -/
theorem decryptConfig_foldl_eq (fields : List (String × Bool)) (pairKey now : Nat)
    (connId : String) (secrets : List (String × BundleVal))
    (acc : List (String × BundleVal)) :
    secrets.foldl (fun acc kv =>
      if kv.2.isFalsy then acc
      else if isPlainKey fields kv.1 then acc ++ [(kv.1, kv.2)]
      else
        match tryDecryptVal pairKey now kv.2 connId with
        | some fs => acc ++ [(kv.1, .vobj fs)]
        | none => acc) acc
    = acc ++ secrets.filterMap (perFieldDec fields pairKey now connId) := by
  induction secrets generalizing acc with
  | nil => simp
  | cons kv rest ih =>
    rw [List.foldl_cons, List.filterMap_cons]
    by_cases h1 : kv.2.isFalsy
    · simp only [h1, if_true, perFieldDec, ih]
    · by_cases h2 : isPlainKey fields kv.1
      · simp only [h1, h2, if_true, if_false, Bool.false_eq_true, perFieldDec, ih,
          List.append_assoc, List.singleton_append]
      · cases h3 : tryDecryptVal pairKey now kv.2 connId with
        | none =>
          simp only [h1, h2, h3, if_false, Bool.false_eq_true, perFieldDec, ih]
        | some fs =>
          simp only [h1, h2, h3, if_false, Bool.false_eq_true, perFieldDec, ih,
            List.append_assoc, List.singleton_append]

/-- `decryptConfig` as a `filterMap`. -/
theorem decryptConfig_eq_filterMap (fields : List (String × Bool)) (pairKey now : Nat)
    (connId : String) (secrets : List (String × BundleVal)) :
    decryptConfig fields pairKey now connId secrets
      = secrets.filterMap (perFieldDec fields pairKey now connId) := by
  rw [decryptConfig, decryptConfig_foldl_eq]
  simp

/-- The per-field outcome never changes the key. -/
theorem perFieldDec_key (fields : List (String × Bool)) (pairKey now : Nat)
    (connId : String) (kv : String × BundleVal) (r : String × BundleVal)
    (h : perFieldDec fields pairKey now connId kv = some r) : r.1 = kv.1 := by
  rw [perFieldDec] at h
  by_cases h1 : kv.2.isFalsy
  · simp [h1] at h
  · by_cases h2 : isPlainKey fields kv.1
    · simp [h1, h2] at h
      rw [← h]
    · cases h3 : tryDecryptVal pairKey now kv.2 connId with
      | none => simp [h1, h2, h3] at h
      | some fs =>
        simp [h1, h2, h3] at h
        rw [← h]

/-- In a key-nodup association list, two entries with the same key are equal. -/
theorem lookupKeys_unique {α : Type} :
    ∀ (l : List (String × α)), (l.map Prod.fst).Nodup →
      ∀ (k : String) (a b : α), (k, a) ∈ l → (k, b) ∈ l → a = b := by
  intro l
  induction l with
  | nil =>
    intro _ k a b ha
    cases ha
  | cons x rest ih =>
    intro hnd k a b ha hb
    rw [List.map_cons, List.nodup_cons] at hnd
    obtain ⟨hx, hrest⟩ := hnd
    rcases List.mem_cons.mp ha with ha1 | ha2
    · rcases List.mem_cons.mp hb with hb1 | hb2
      · have h := ha1.trans hb1.symm
        cases h
        rfl
      · exfalso
        apply hx
        have hk : x.1 = k := by rw [← ha1]
        rw [hk]
        exact List.mem_map.mpr ⟨(k, b), hb2, rfl⟩
    · rcases List.mem_cons.mp hb with hb1 | hb2
      · exfalso
        apply hx
        have hk : x.1 = k := by rw [← hb1]
        rw [hk]
        exact List.mem_map.mpr ⟨(k, a), ha2, rfl⟩
      · exact ih hrest k a b ha2 hb2

/-- C9 — for every field `(k, v)` of an incoming secret bundle (with the
bundle's keys unique, as JavaScript object keys are) whose value is truthy:
if the schema marks `k` plain or `k` is on the endpoint-URL allow-list, the
value is copied verbatim into the decrypted output without touching the
codec; if `k` is not plain and its ciphertext decrypts under the connector's
key and id, the plaintext object appears in the output; if the decryption
fails, `k` is absent from the output entirely — while every other field's
per-field outcome still appears (the loop catches the throw and continues,
so no exception escapes: `decryptConfig` is total). -/
theorem decrypt_config_fields (fields : List (String × Bool)) (pairKey now : Nat)
    (connId : String) (secrets : List (String × BundleVal))
    (hnd : (secrets.map Prod.fst).Nodup)
    (k : String) (v : BundleVal) (hmem : (k, v) ∈ secrets) (hv : v.isFalsy = false) :
    (isPlainKey fields k = true →
      (k, v) ∈ decryptConfig fields pairKey now connId secrets)
    ∧ (∀ fs, isPlainKey fields k = false →
        tryDecryptVal pairKey now v connId = some fs →
        (k, BundleVal.vobj fs) ∈ decryptConfig fields pairKey now connId secrets)
    ∧ (isPlainKey fields k = false →
        tryDecryptVal pairKey now v connId = none →
        ∀ w, (k, w) ∉ decryptConfig fields pairKey now connId secrets)
    ∧ (∀ kv r, kv ∈ secrets →
        perFieldDec fields pairKey now connId kv = some r →
        r ∈ decryptConfig fields pairKey now connId secrets) := by
  refine ⟨?_, ?_, ?_, ?_⟩
  · intro hplain
    rw [decryptConfig_eq_filterMap]
    refine List.mem_filterMap.mpr ⟨(k, v), hmem, ?_⟩
    simp [perFieldDec, hv, hplain]
  · intro fs hplain hdec
    rw [decryptConfig_eq_filterMap]
    refine List.mem_filterMap.mpr ⟨(k, v), hmem, ?_⟩
    simp [perFieldDec, hv, hplain, hdec]
  · intro hplain hdec w hw
    rw [decryptConfig_eq_filterMap] at hw
    obtain ⟨kv, hkv, hsome⟩ := List.mem_filterMap.mp hw
    have hk : k = kv.1 := perFieldDec_key fields pairKey now connId kv (k, w) hsome
    have hkv2 : (k, kv.2) ∈ secrets := by
      rw [hk]
      exact (Prod.mk.eta (p := kv)) ▸ hkv
    have hveq : kv.2 = v := lookupKeys_unique secrets hnd k kv.2 v hkv2 hmem
    have hkv' : kv = (k, v) := by
      obtain ⟨k1, v1⟩ := kv
      simp only at hk hveq
      rw [← hk, hveq]
    rw [hkv'] at hsome
    simp [perFieldDec, hv, hplain, hdec] at hsome
  · intro kv r hkv hsome
    rw [decryptConfig_eq_filterMap]
    exact List.mem_filterMap.mpr ⟨kv, hkv, hsome⟩

/-- The concrete secret bundle used for the C9 witness: a plain URL field, an
encrypted OAuth-result field, and a corrupted non-plain field. -/
def demoSecrets : List (String × BundleVal) :=
  [("url", .vstr "https"),
   ("apiKey", .vtok (JWE.encrypt 0 0 (.jobj [("s", .jstr "v")]) none "c1")),
   ("bad", .vstr "junk")]

/-- The demo schema: `url` is plain, `apiKey` is not. -/
def demoFields : List (String × Bool) := [("url", true), ("apiKey", false)]

/-- C9 — witness: the theorem applied to `demoSecrets` at the encrypted field
`apiKey`, whose ciphertext decrypts to `{s: "v"}` under key pair 0 and
audience `"c1"`. -/
theorem decrypt_config_fields_witness :
    (demoSecrets.map Prod.fst).Nodup
    ∧ ("apiKey",
        BundleVal.vtok (JWE.encrypt 0 0 (.jobj [("s", .jstr "v")]) none "c1")) ∈ demoSecrets
    ∧ (BundleVal.vtok (JWE.encrypt 0 0 (.jobj [("s", .jstr "v")]) none "c1")).isFalsy = false
    ∧ ((isPlainKey demoFields "apiKey" = true →
        ("apiKey", BundleVal.vtok (JWE.encrypt 0 0 (.jobj [("s", .jstr "v")]) none "c1"))
          ∈ decryptConfig demoFields 0 0 "c1" demoSecrets)
      ∧ (∀ fs, isPlainKey demoFields "apiKey" = false →
          tryDecryptVal 0 0
              (BundleVal.vtok (JWE.encrypt 0 0 (.jobj [("s", .jstr "v")]) none "c1")) "c1"
            = some fs →
          ("apiKey", BundleVal.vobj fs) ∈ decryptConfig demoFields 0 0 "c1" demoSecrets)
      ∧ (isPlainKey demoFields "apiKey" = false →
          tryDecryptVal 0 0
              (BundleVal.vtok (JWE.encrypt 0 0 (.jobj [("s", .jstr "v")]) none "c1")) "c1"
            = none →
          ∀ w, ("apiKey", w) ∉ decryptConfig demoFields 0 0 "c1" demoSecrets)
      ∧ (∀ kv r, kv ∈ demoSecrets →
          perFieldDec demoFields 0 0 "c1" kv = some r →
          r ∈ decryptConfig demoFields 0 0 "c1" demoSecrets)) :=
  ⟨by decide, List.Mem.tail _ (List.Mem.head _), rfl,
    decrypt_config_fields demoFields 0 0 "c1" demoSecrets (by decide) "apiKey"
      (BundleVal.vtok (JWE.encrypt 0 0 (.jobj [("s", .jstr "v")]) none "c1"))
      (List.Mem.tail _ (List.Mem.head _)) rfl⟩

/-! ## Correlation table and timeout sweep (`Transport` callbacks)

`newPacket(data, cb, cbKey)` stores `new Callback({cb})` (which records
`created = Date.now()`) under the correlation key.  `onMessage` looks the
inbound packet's correlation id up; on a hit it invokes the callback with the
packet's args and deletes the entry (in a `finally`).  `clean()` — run every
45 s — iterates a copy of the table and, for every entry older than 5 minutes,
invokes the callback with `{error: 'timeout'}` and deletes the entry.  We
model the table as a key-ordered association list (JavaScript object
key-insertion order), callback invocations as an append-only log, and the
interleaving of registrations, inbound messages and sweeps as an event
trace carrying the clock. -/

/-- What a callback was invoked with. -/
inductive CbArg where
  /-- `cb({error: 'timeout'})` from `clean()` running at clock `at_`. -/
  | timeout (at_ : Nat)
  /-- `cb(packet.args())` from a correlated reply. -/
  | reply (args : Nat)
deriving DecidableEq, Repr

/-- Transport correlation-table state: the live entries (key ↦ `created`
time) in insertion order, and the log of callback invocations. -/
structure CorrState where
  cbs : List (String × Nat)
  log : List (String × CbArg)
deriving DecidableEq, Repr

/-- Events touching the correlation table. -/
inductive CorrEvent where
  /-- `newPacket(data, cb, key)` at clock `now`: register the callback. -/
  | register (key : String) (now : Nat)
  /-- An inbound packet with correlation id `key` (`none`: no `c` field)
  and args `args` reaches `onMessage`. -/
  | msg (key : Option String) (args : Nat)
  /-- The periodic `clean()` sweep fires at clock `now`. -/
  | sweep (now : Nat)
deriving DecidableEq, Repr

/-- Set a key in insertion-ordered fashion: overwriting keeps the original
position (JavaScript object semantics), a fresh key is appended. -/
def setKV : List (String × Nat) → String → Nat → List (String × Nat)
  | [], k, t => [(k, t)]
  | (k', t') :: rest, k, t =>
    if k' = k then (k', t) :: rest else (k', t') :: setKV rest k t

/-- `delete obj[k]`: remove the entry. -/
def delKV : List (String × Nat) → String → List (String × Nat)
  | [], _ => []
  | (k', t') :: rest, k =>
    if k' = k then rest else (k', t') :: delKV rest k

/-- `clean()`'s expiry test: `cb.created < Date.now() - 5 * 60 * 1000`
(truncated subtraction matches: for `now < 300000` the JavaScript right-hand
side is negative and no non-negative `created` passes). -/
def isExpired (now created : Nat) : Bool :=
  decide (created < now - 300000)

/-- One step of the correlation-table state machine. -/
def corrStep (st : CorrState) : CorrEvent → CorrState
  | .register k now => { st with cbs := setKV st.cbs k now }
  | .msg none _ => st
  | .msg (some k) args =>
    match lookupKV st.cbs k with
    | some _ => { cbs := delKV st.cbs k, log := st.log ++ [(k, .reply args)] }
    | none => st
  | .sweep now =>
    { cbs := st.cbs.filter (fun e => !(isExpired now e.2)),
      log := st.log ++ (st.cbs.filter (fun e => isExpired now e.2)).map
        (fun e => (e.1, CbArg.timeout now)) }

/-- Run a trace of correlation events from a state. -/
def corrRun (st : CorrState) : List CorrEvent → CorrState
  | [] => st
  | e :: rest => corrRun (corrStep st e) rest

/-- The number of times the callback registered under `k` has been invoked. -/
def invocations (k : String) (log : List (String × CbArg)) : Nat :=
  (log.filter (fun e => e.1 = k)).length

example :
    corrRun ⟨[], []⟩ [.register "a" 0, .sweep 300000, .sweep 300001]
      = ⟨[], [("a", .timeout 300001)]⟩ := by decide

example :
    corrRun ⟨[], []⟩ [.register "a" 0, .msg (some "a") 9, .sweep 400000]
      = ⟨[], [("a", .reply 9)]⟩ := by decide

example :
    invocations "a" (corrRun ⟨[], []⟩
      [.register "a" 0, .sweep 300001, .msg (some "a") 9]).log = 1 := by decide

theorem lookup_setKV_self (l : List (String × Nat)) (k : String) (t : Nat) :
    lookupKV (setKV l k t) k = some t := by
  induction l with
  | nil => simp [setKV, lookupKV]
  | cons x rest ih =>
    by_cases h : x.1 = k
    · obtain ⟨a, b⟩ := x
      simp only at h
      simp [setKV, lookupKV, h]
    · obtain ⟨a, b⟩ := x
      simp only at h
      simp [setKV, lookupKV, h, ih]

theorem lookup_setKV_other (l : List (String × Nat)) (k k' : String) (t : Nat)
    (h : k' ≠ k) : lookupKV (setKV l k t) k' = lookupKV l k' := by
  have hne : k ≠ k' := fun hh => h hh.symm
  induction l with
  | nil => simp [setKV, lookupKV, hne]
  | cons x rest ih =>
    obtain ⟨a, b⟩ := x
    by_cases ha : a = k
    · subst ha
      simp [setKV, lookupKV, hne]
    · by_cases ha' : a = k'
      · simp [setKV, lookupKV, ha, ha', h]
      · simp [setKV, lookupKV, ha, ha', ih]

theorem mem_keys_setKV (l : List (String × Nat)) (k a : String) (t : Nat)
    (h : a ∈ (setKV l k t).map Prod.fst) : a ∈ l.map Prod.fst ∨ a = k := by
  induction l with
  | nil =>
    simp [setKV] at h
    exact Or.inr h
  | cons x rest ih =>
    obtain ⟨c, b⟩ := x
    by_cases hc : c = k
    · subst hc
      simp only [setKV, if_true, List.map_cons, List.mem_cons] at h
      rcases h with h | h
      · exact Or.inl (by simp [h])
      · exact Or.inl (by simp [h])
    · simp only [setKV, hc, if_false, List.map_cons, List.mem_cons] at h
      rcases h with h | h
      · exact Or.inl (by simp [h])
      · rcases ih h with h' | h'
        · exact Or.inl (by simp [h'])
        · exact Or.inr h'

theorem nodup_setKV (l : List (String × Nat)) (k : String) (t : Nat)
    (hnd : (l.map Prod.fst).Nodup) : ((setKV l k t).map Prod.fst).Nodup := by
  induction l with
  | nil => simp [setKV]
  | cons x rest ih =>
    rw [List.map_cons, List.nodup_cons] at hnd
    obtain ⟨hx, hrest⟩ := hnd
    obtain ⟨c, b⟩ := x
    simp only at hx
    by_cases hc : c = k
    · subst hc
      simp only [setKV, if_true, List.map_cons, List.nodup_cons]
      exact ⟨hx, hrest⟩
    · simp only [setKV, hc, if_false, List.map_cons, List.nodup_cons]
      refine ⟨?_, ih hrest⟩
      intro hmem
      rcases mem_keys_setKV rest k c t hmem with h' | h'
      · exact hx h'
      · exact hc h'

theorem delKV_sublist (l : List (String × Nat)) (k : String) :
    (delKV l k).Sublist l := by
  induction l with
  | nil => simp [delKV]
  | cons x rest ih =>
    obtain ⟨c, b⟩ := x
    by_cases hc : c = k
    · simp only [delKV, hc, if_true]
      exact (List.Sublist.refl rest).cons (k, b)
    · simp only [delKV, hc, if_false]
      exact ih.cons₂ (c, b)

theorem nodup_delKV (l : List (String × Nat)) (k : String)
    (hnd : (l.map Prod.fst).Nodup) : ((delKV l k).map Prod.fst).Nodup := by
  exact hnd.sublist ((delKV_sublist l k).map Prod.fst)

theorem lookup_delKV_other (l : List (String × Nat)) (k k' : String)
    (h : k' ≠ k) : lookupKV (delKV l k) k' = lookupKV l k' := by
  induction l with
  | nil => simp [delKV]
  | cons x rest ih =>
    obtain ⟨c, b⟩ := x
    by_cases hc : c = k
    · subst hc
      have : c ≠ k' := fun hh => h hh.symm
      simp [delKV, lookupKV, this]
    · by_cases hc' : c = k'
      · simp [delKV, lookupKV, hc, hc', h]
      · simp [delKV, lookupKV, hc, hc', ih]

theorem lookup_eq_none_iff (l : List (String × Nat)) (k : String) :
    lookupKV l k = none ↔ ∀ v, (k, v) ∉ l := by
  induction l with
  | nil => simp [lookupKV]
  | cons x rest ih =>
    obtain ⟨c, b⟩ := x
    by_cases hc : c = k
    · subst hc
      simp only [lookupKV, if_true]
      constructor
      · intro h
        cases h
      · intro h
        exact absurd (List.Mem.head _) (h b)
    · simp only [lookupKV, hc, if_false, ih]
      constructor
      · intro h v hv
        rcases List.mem_cons.mp hv with h1 | h1
        · exact hc (congrArg Prod.fst h1).symm
        · exact h v h1
      · intro h v hv
        exact h v (List.Mem.tail _ hv)

theorem lookup_delKV_self (l : List (String × Nat)) (k : String)
    (hnd : (l.map Prod.fst).Nodup) : lookupKV (delKV l k) k = none := by
  induction l with
  | nil => simp [delKV, lookupKV]
  | cons x rest ih =>
    rw [List.map_cons, List.nodup_cons] at hnd
    obtain ⟨hx, hrest⟩ := hnd
    obtain ⟨c, b⟩ := x
    simp only at hx
    by_cases hc : c = k
    · subst hc
      simp only [delKV, if_true]
      rw [lookup_eq_none_iff]
      intro v hv
      exact hx (List.mem_map.mpr ⟨(c, v), hv, rfl⟩)
    · simp only [delKV, hc, if_false, lookupKV, ih hrest]

theorem nodup_filterKV (l : List (String × Nat)) (p : String × Nat → Bool)
    (hnd : (l.map Prod.fst).Nodup) : ((l.filter p).map Prod.fst).Nodup := by
  exact hnd.sublist ((List.filter_sublist l).map Prod.fst)

theorem lookup_some_mem (l : List (String × Nat)) (k : String) (v : Nat)
    (h : lookupKV l k = some v) : (k, v) ∈ l := by
  induction l with
  | nil => simp [lookupKV] at h
  | cons x rest ih =>
    obtain ⟨c, b⟩ := x
    by_cases hc : c = k
    · subst hc
      simp only [lookupKV, if_true, Option.some.injEq] at h
      rw [← h]
      exact List.Mem.head _
    · simp only [lookupKV, hc, if_false] at h
      exact List.Mem.tail _ (ih h)

theorem corrRun_append (st : CorrState) (es1 es2 : List CorrEvent) :
    corrRun st (es1 ++ es2) = corrRun (corrRun st es1) es2 := by
  induction es1 generalizing st with
  | nil => rfl
  | cons e rest ih =>
    rw [List.cons_append, corrRun, corrRun, ih]

theorem corrStep_log_mono (st : CorrState) (e : CorrEvent) :
    ∃ tl, (corrStep st e).log = st.log ++ tl := by
  cases e with
  | register k now => exact ⟨[], by simp [corrStep]⟩
  | sweep now => exact ⟨_, rfl⟩
  | msg k args =>
    cases k with
    | none => exact ⟨[], by simp [corrStep]⟩
    | some k' =>
      cases h : lookupKV st.cbs k' with
      | none => exact ⟨[], by simp [corrStep, h]⟩
      | some v => exact ⟨[(k', .reply args)], by simp [corrStep, h]⟩

theorem corrRun_log_mono (es : List CorrEvent) (st : CorrState) :
    ∃ tl, (corrRun st es).log = st.log ++ tl := by
  induction es generalizing st with
  | nil => exact ⟨[], by simp [corrRun]⟩
  | cons e rest ih =>
    obtain ⟨t1, h1⟩ := corrStep_log_mono st e
    obtain ⟨t2, h2⟩ := ih (corrStep st e)
    exact ⟨t1 ++ t2, by rw [corrRun, h2, h1, List.append_assoc]⟩

theorem corrRun_log_mem (es : List CorrEvent) (st : CorrState)
    (x : String × CbArg) (hx : x ∈ st.log) : x ∈ (corrRun st es).log := by
  obtain ⟨tl, h⟩ := corrRun_log_mono es st
  rw [h]
  exact List.mem_append_left _ hx

theorem nodup_corrStep (st : CorrState) (e : CorrEvent)
    (hnd : (st.cbs.map Prod.fst).Nodup) :
    ((corrStep st e).cbs.map Prod.fst).Nodup := by
  cases e with
  | register k now => exact nodup_setKV _ _ _ hnd
  | sweep now => exact nodup_filterKV _ _ hnd
  | msg k args =>
    cases k with
    | none => exact hnd
    | some k' =>
      cases h : lookupKV st.cbs k' with
      | none => simpa [corrStep, h] using hnd
      | some v =>
        simp only [corrStep, h]
        exact nodup_delKV _ _ hnd

theorem lookup_none_of_sublist (l l' : List (String × Nat)) (k : String)
    (hsub : l'.Sublist l) (h : lookupKV l k = none) : lookupKV l' k = none := by
  rw [lookup_eq_none_iff] at h ⊢
  intro v hv
  exact h v (hsub.mem hv)

theorem corr_absent_run (es : List CorrEvent) (st : CorrState) (K : String)
    (hnone : lookupKV st.cbs K = none)
    (hnd : (st.cbs.map Prod.fst).Nodup)
    (hreg : ∀ t, CorrEvent.register K t ∉ es) :
    lookupKV (corrRun st es).cbs K = none
    ∧ ((corrRun st es).cbs.map Prod.fst).Nodup
    ∧ invocations K (corrRun st es).log = invocations K st.log := by
  induction es generalizing st with
  | nil => exact ⟨hnone, hnd, rfl⟩
  | cons e rest ih =>
    have hreg' : ∀ t, CorrEvent.register K t ∉ rest := by
      intro t ht
      exact hreg t (List.Mem.tail _ ht)
    have hstep : lookupKV (corrStep st e).cbs K = none
        ∧ invocations K (corrStep st e).log = invocations K st.log := by
      cases e with
      | register k now =>
        have hk : k ≠ K := by
          intro h
          exact hreg now (by rw [h]; exact List.Mem.head _)
        constructor
        · rw [corrStep]
          rw [lookup_setKV_other _ _ _ _ (fun hh => hk hh.symm)]
          exact hnone
        · rfl
      | sweep now =>
        constructor
        · exact lookup_none_of_sublist _ _ _ (List.filter_sublist _) hnone
        · rw [corrStep]
          simp only [invocations, List.filter_append, List.length_append]
          have hzero : (((st.cbs.filter (fun e => isExpired now e.2)).map
              (fun e => (e.1, CbArg.timeout now))).filter
                (fun e => e.1 = K)).length = 0 := by
            rw [List.length_eq_zero, List.filter_eq_nil_iff]
            intro a ha
            obtain ⟨e', he', hfst⟩ := List.mem_map.mp ha
            have he'' : e' ∈ st.cbs := (List.filter_sublist _).mem he'
            rw [lookup_eq_none_iff] at hnone
            simp only [decide_eq_true_eq]
            intro hK
            have : e'.1 = K := by rw [← hfst] at hK; exact hK
            apply hnone e'.2
            rw [← this]
            exact he''
          rw [hzero]
          omega
      | msg k args =>
        cases k with
        | none => exact ⟨hnone, rfl⟩
        | some k' =>
          cases h : lookupKV st.cbs k' with
          | none => simp only [corrStep, h]; exact ⟨hnone, by trivial⟩
          | some v =>
            have hk : k' ≠ K := by
              intro hh
              rw [hh, hnone] at h
              cases h
            simp only [corrStep, h]
            constructor
            · exact lookup_none_of_sublist _ _ _ (delKV_sublist _ _) hnone
            · simp [invocations, List.filter_append, hk]
    obtain ⟨h1, h2⟩ := hstep
    obtain ⟨r1, r2, r3⟩ := ih (corrStep st e) h1 (nodup_corrStep st e hnd) hreg'
    refine ⟨r1, r2, ?_⟩
    show invocations K (corrRun (corrStep st e) rest).log = invocations K st.log
    rw [r3, h2]

theorem lookup_filter_pos (l : List (String × Nat)) (p : String × Nat → Bool)
    (k : String) (v : Nat) (hlk : lookupKV l k = some v) (hp : p (k, v) = true) :
    lookupKV (l.filter p) k = some v := by
  induction l with
  | nil => simp [lookupKV] at hlk
  | cons x rest ih =>
    obtain ⟨c, b⟩ := x
    by_cases hc : c = k
    · subst hc
      simp only [lookupKV, if_true, Option.some.injEq] at hlk
      subst hlk
      rw [List.filter_cons_of_pos hp]
      simp [lookupKV]
    · simp only [lookupKV, hc, if_false] at hlk
      cases hcb : p (c, b) with
      | true =>
        rw [List.filter_cons_of_pos hcb]
        simp only [lookupKV, hc, if_false]
        exact ih hlk
      | false =>
        rw [List.filter_cons_of_neg (by simp [hcb])]
        exact ih hlk

theorem lookup_filter_neg (l : List (String × Nat)) (p : String × Nat → Bool)
    (k : String) (v : Nat) (hnd : (l.map Prod.fst).Nodup)
    (hlk : lookupKV l k = some v) (hp : p (k, v) = false) :
    lookupKV (l.filter p) k = none := by
  induction l with
  | nil => simp [lookupKV] at hlk
  | cons x rest ih =>
    rw [List.map_cons, List.nodup_cons] at hnd
    obtain ⟨hx, hrest⟩ := hnd
    obtain ⟨c, b⟩ := x
    simp only at hx
    by_cases hc : c = k
    · subst hc
      simp only [lookupKV, if_true, Option.some.injEq] at hlk
      subst hlk
      rw [List.filter_cons_of_neg (by simp [hp])]
      have hnone : lookupKV rest c = none := by
        rw [lookup_eq_none_iff]
        intro w hw
        exact hx (List.mem_map.mpr ⟨(c, w), hw, rfl⟩)
      exact lookup_none_of_sublist _ _ _ (List.filter_sublist _) hnone
    · simp only [lookupKV, hc, if_false] at hlk
      cases hcb : p (c, b) with
      | true =>
        rw [List.filter_cons_of_pos hcb]
        simp only [lookupKV, hc, if_false]
        exact ih hrest hlk
      | false =>
        rw [List.filter_cons_of_neg (by simp [hcb])]
        exact ih hrest hlk

theorem lookup_sweep_not_expired (cbs : List (String × Nat)) (K : String) (T now : Nat)
    (hlk : lookupKV cbs K = some T) (hexp : isExpired now T = false) :
    lookupKV (cbs.filter (fun e => !(isExpired now e.2))) K = some T := by
  apply lookup_filter_pos _ _ _ _ hlk
  show (!(isExpired now T)) = true
  rw [hexp]
  rfl

theorem lookup_sweep_expired (cbs : List (String × Nat)) (K : String) (T now : Nat)
    (hnd : (cbs.map Prod.fst).Nodup) (hlk : lookupKV cbs K = some T)
    (hexp : isExpired now T = true) :
    lookupKV (cbs.filter (fun e => !(isExpired now e.2))) K = none := by
  apply lookup_filter_neg _ _ _ _ hnd hlk
  show (!(isExpired now T)) = false
  rw [hexp]
  rfl

/-- Part one of C2: a callback registered with `created = T` and never
answered nor re-registered is resolved by the first sweep that runs strictly
after `T + 5` minutes: the timeout invocation lands in the log (timestamped
with that sweep's clock) and the entry is removed for good. -/
theorem corr_timeout_fires (es : List CorrEvent) (st : CorrState) (K : String)
    (T : Nat)
    (hlk : lookupKV st.cbs K = some T)
    (hnd : (st.cbs.map Prod.fst).Nodup)
    (hreg : ∀ t, CorrEvent.register K t ∉ es)
    (hmsg : ∀ a, CorrEvent.msg (some K) a ∉ es)
    (tS : Nat) (hsmem : CorrEvent.sweep tS ∈ es) (htS : T + 300000 < tS) :
    (∃ t', T + 300000 < t' ∧ (K, CbArg.timeout t') ∈ (corrRun st es).log)
    ∧ lookupKV (corrRun st es).cbs K = none := by
  induction es generalizing st with
  | nil => cases hsmem
  | cons e rest ih =>
    have hreg' : ∀ t, CorrEvent.register K t ∉ rest := fun t ht => hreg t (List.Mem.tail _ ht)
    have hmsg' : ∀ a, CorrEvent.msg (some K) a ∉ rest := fun a ha => hmsg a (List.Mem.tail _ ha)
    cases e with
    | register k' now =>
      have hk : k' ≠ K := by
        intro h
        exact hreg now (by rw [h]; exact List.Mem.head _)
      have hsmem' : CorrEvent.sweep tS ∈ rest := by
        rcases List.mem_cons.mp hsmem with h | h
        · simp at h
        · exact h
      have hlk' : lookupKV (corrStep st (.register k' now)).cbs K = some T := by
        rw [corrStep, lookup_setKV_other _ _ _ _ (fun hh => hk hh.symm)]
        exact hlk
      exact ih (corrStep st (.register k' now)) hlk'
        (nodup_corrStep st _ hnd) hreg' hmsg' hsmem'
    | msg k' args =>
      have hsmem' : CorrEvent.sweep tS ∈ rest := by
        rcases List.mem_cons.mp hsmem with h | h
        · simp at h
        · exact h
      cases k' with
      | none => exact ih (corrStep st (.msg none args)) hlk hnd hreg' hmsg' hsmem'
      | some k'' =>
        have hk : k'' ≠ K := by
          intro h
          exact hmsg args (by rw [h]; exact List.Mem.head _)
        have hlk' : lookupKV (corrStep st (.msg (some k'') args)).cbs K = some T := by
          cases h : lookupKV st.cbs k'' with
          | none => simp only [corrStep, h]; exact hlk
          | some v =>
            simp only [corrStep, h]
            rw [lookup_delKV_other _ _ _ (fun hh => hk hh.symm)]
            exact hlk
        exact ih (corrStep st (.msg (some k'') args)) hlk'
          (nodup_corrStep st _ hnd) hreg' hmsg' hsmem'
    | sweep now =>
      cases hexp : isExpired now T with
      | true =>
        -- this sweep fires for K: timeout invocation logged, entry removed
        have hlate : T + 300000 < now := by
          have h1 : T < now - 300000 := of_decide_eq_true hexp
          omega
        have hmemlog : (K, CbArg.timeout now) ∈ (corrStep st (.sweep now)).log := by
          rw [corrStep]
          apply List.mem_append_right
          apply List.mem_map.mpr
          refine ⟨(K, T), ?_, rfl⟩
          apply List.mem_filter.mpr
          exact ⟨lookup_some_mem _ _ _ hlk, hexp⟩
        have hnone : lookupKV (corrStep st (.sweep now)).cbs K = none :=
          lookup_sweep_expired st.cbs K T now hnd hlk hexp
        obtain ⟨r1, r2, r3⟩ := corr_absent_run rest (corrStep st (.sweep now)) K
          hnone (nodup_corrStep st _ hnd) hreg'
        refine ⟨⟨now, hlate, ?_⟩, r1⟩
        exact corrRun_log_mem rest _ _ hmemlog
      | false =>
        have hsmem' : CorrEvent.sweep tS ∈ rest := by
          rcases List.mem_cons.mp hsmem with h | h
          · exfalso
            have hnow : tS = now := by
              injection h
            subst hnow
            have h1 : T < tS - 300000 := by omega
            have h2 : isExpired tS T = true := decide_eq_true h1
            rw [h2] at hexp
            cases hexp
          · exact h
        have hlk' : lookupKV (corrStep st (.sweep now)).cbs K = some T :=
          lookup_sweep_not_expired st.cbs K T now hlk hexp
        exact ih (corrStep st (.sweep now)) hlk'
          (nodup_corrStep st _ hnd) hreg' hmsg' hsmem'

theorem invocations_append (K : String) (a b : List (String × CbArg)) :
    invocations K (a ++ b) = invocations K a + invocations K b := by
  simp [invocations, List.filter_append]

theorem invocations_map_keys (K : String) (l : List (String × Nat)) (f : String × Nat → CbArg) :
    invocations K (l.map (fun e => (e.1, f e)))
      = (l.filter (fun e => decide (e.1 = K))).length := by
  induction l with
  | nil => rfl
  | cons x rest ih =>
    by_cases hx : x.1 = K
    · simp only [List.map_cons, invocations, List.filter_cons] at *
      simp [hx, ih]
    · simp only [List.map_cons, invocations, List.filter_cons] at *
      simp [hx, ih]

theorem countKeys_le_one (K : String) (l : List (String × Nat))
    (hnd : (l.map Prod.fst).Nodup) :
    (l.filter (fun e => decide (e.1 = K))).length ≤ 1 := by
  induction l with
  | nil => simp
  | cons x rest ih =>
    rw [List.map_cons, List.nodup_cons] at hnd
    obtain ⟨hx, hrest⟩ := hnd
    by_cases hk : x.1 = K
    · have hzero : (rest.filter (fun e => decide (e.1 = K))).length = 0 := by
        rw [List.length_eq_zero, List.filter_eq_nil_iff]
        intro e he
        simp only [decide_eq_true_eq]
        intro heK
        apply hx
        rw [hk, ← heK]
        exact List.mem_map.mpr ⟨e, he, rfl⟩
      rw [List.filter_cons]
      simp [hk, hzero]
    · rw [List.filter_cons]
      simp only [hk, decide_eq_true_eq, if_false]
      simpa using ih hrest

theorem countKeys_zero_of_absent (K : String) (l : List (String × Nat))
    (h : ∀ e ∈ l, e.1 ≠ K) :
    (l.filter (fun e => decide (e.1 = K))).length = 0 := by
  rw [List.length_eq_zero, List.filter_eq_nil_iff]
  intro e he
  simp only [decide_eq_true_eq]
  exact h e he

/-- Part-two workhorse: while the callback for `K` is live (registered at
`T`), any run without further registrations of `K` adds at most one
invocation of `K` to the log — the hit (reply or timeout) deletes the entry,
and `corr_absent_run` shows a deleted key is never invoked again. -/
theorem corr_present_run (es : List CorrEvent) (st : CorrState) (K : String) (T : Nat)
    (hlk : lookupKV st.cbs K = some T)
    (hnd : (st.cbs.map Prod.fst).Nodup)
    (hreg : ∀ t, CorrEvent.register K t ∉ es) :
    invocations K (corrRun st es).log ≤ invocations K st.log + 1 := by
  induction es generalizing st T with
  | nil =>
    rw [corrRun]
    omega
  | cons e rest ih =>
    have hreg' : ∀ t, CorrEvent.register K t ∉ rest := fun t ht => hreg t (List.Mem.tail _ ht)
    cases e with
    | register k' now =>
      have hk : k' ≠ K := by
        intro h
        exact hreg now (by rw [h]; exact List.Mem.head _)
      have hlk' : lookupKV (corrStep st (.register k' now)).cbs K = some T := by
        rw [corrStep, lookup_setKV_other _ _ _ _ (fun hh => hk hh.symm)]
        exact hlk
      exact ih (corrStep st (.register k' now)) T hlk' (nodup_corrStep st _ hnd) hreg'
    | msg k' args =>
      cases k' with
      | none => exact ih (corrStep st (.msg none args)) T hlk hnd hreg'
      | some k'' =>
        cases h : lookupKV st.cbs k'' with
        | none =>
          have hid : corrStep st (.msg (some k'') args) = st := by
            simp [corrStep, h]
          rw [corrRun, hid]
          exact ih st T hlk hnd hreg'
        | some v =>
          by_cases hk : K = k''
          · subst hk
            have hnone : lookupKV (corrStep st (.msg (some K) args)).cbs K = none := by
              simp only [corrStep, h]
              exact lookup_delKV_self _ _ hnd
            obtain ⟨r1, r2, r3⟩ := corr_absent_run rest
              (corrStep st (.msg (some K) args)) K hnone
              (nodup_corrStep st _ hnd) hreg'
            rw [corrRun, r3]
            simp only [corrStep, h]
            rw [invocations_append]
            simp [invocations]
          · have hk2 : k'' ≠ K := fun hh => hk hh.symm
            have hlk' : lookupKV (corrStep st (.msg (some k'') args)).cbs K = some T := by
              simp only [corrStep, h]
              rw [lookup_delKV_other _ _ _ hk]
              exact hlk
            have hcount : invocations K (corrStep st (.msg (some k'') args)).log
                = invocations K st.log := by
              simp only [corrStep, h]
              rw [invocations_append]
              simp [invocations, hk2]
            have hrec := ih (corrStep st (.msg (some k'') args)) T hlk'
              (nodup_corrStep st _ hnd) hreg'
            rw [corrRun]
            omega
    | sweep now =>
      have hcount : invocations K (corrStep st (.sweep now)).log
          ≤ invocations K st.log + 1 := by
        rw [corrStep]
        simp only
        rw [invocations_append, invocations_map_keys]
        have := countKeys_le_one K (st.cbs.filter (fun e => isExpired now e.2))
          (nodup_filterKV _ _ hnd)
        omega
      cases hexp : isExpired now T with
      | true =>
        have hnone : lookupKV (corrStep st (.sweep now)).cbs K = none :=
          lookup_sweep_expired st.cbs K T now hnd hlk hexp
        obtain ⟨r1, r2, r3⟩ := corr_absent_run rest (corrStep st (.sweep now)) K
          hnone (nodup_corrStep st _ hnd) hreg'
        rw [corrRun, r3]
        exact hcount
      | false =>
        have hlk' : lookupKV (corrStep st (.sweep now)).cbs K = some T :=
          lookup_sweep_not_expired st.cbs K T now hlk hexp
        have hzero : invocations K (corrStep st (.sweep now)).log
            = invocations K st.log := by
          rw [corrStep]
          simp only
          rw [invocations_append, invocations_map_keys]
          have h0 : ∀ e ∈ st.cbs.filter (fun e => isExpired now e.2), e.1 ≠ K := by
            intro e he heK
            have hmem : e ∈ st.cbs := (List.filter_sublist _).mem he
            have hexpE : isExpired now e.2 = true := by
              have := List.mem_filter.mp he
              exact this.2
            have hET : e.2 = T := by
              apply lookupKeys_unique st.cbs hnd K e.2 T
              · rw [← heK]
                exact (Prod.mk.eta (p := e)) ▸ hmem
              · exact lookup_some_mem _ _ _ hlk
            rw [hET] at hexpE
            rw [hexpE] at hexp
            cases hexp
          rw [countKeys_zero_of_absent K _ h0]
          omega
        have hrec := ih (corrStep st (.sweep now)) T hlk' (nodup_corrStep st _ hnd) hreg'
        rw [corrRun]
        omega

/-- C2 — a callback registered at time `T` (and not re-registered) whose
correlation id never receives a reply is invoked with the timeout error by the
sweep, at a clock at or after `T + 5` minutes (strictly after, in fact, since
`clean()` uses `created < now - 300000`), and its entry is removed; moreover,
over ANY continuation of the trace — including one where a late reply packet
carrying the same correlation id arrives after the timeout fired — the
callback is invoked at most once in total. -/
theorem pending_call_timeout (es1 es2 : List CorrEvent) (K : String) (T tS : Nat)
    (hreg1 : ∀ t, CorrEvent.register K t ∉ es1)
    (hreg2 : ∀ t, CorrEvent.register K t ∉ es2)
    (hrep : ∀ a, CorrEvent.msg (some K) a ∉ es2)
    (hsw : CorrEvent.sweep tS ∈ es2) (htS : T + 300000 < tS) :
    (∃ t', T + 300000 ≤ t' ∧
      (K, CbArg.timeout t') ∈ (corrRun ⟨[], []⟩ (es1 ++ CorrEvent.register K T :: es2)).log)
    ∧ lookupKV (corrRun ⟨[], []⟩ (es1 ++ CorrEvent.register K T :: es2)).cbs K = none
    ∧ (∀ f2 : List CorrEvent, (∀ t, CorrEvent.register K t ∉ f2) →
        invocations K (corrRun ⟨[], []⟩ (es1 ++ CorrEvent.register K T :: f2)).log ≤ 1) := by
  obtain ⟨a1, a2, a3⟩ := corr_absent_run es1 ⟨[], []⟩ K rfl (by simp) hreg1
  have hsplit : ∀ f2 : List CorrEvent,
      corrRun (⟨[], []⟩ : CorrState) (es1 ++ CorrEvent.register K T :: f2)
        = corrRun (corrStep (corrRun ⟨[], []⟩ es1) (.register K T)) f2 := by
    intro f2
    rw [corrRun_append]
    rfl
  set st1 := corrRun (⟨[], []⟩ : CorrState) es1 with hst1
  have hlk2 : lookupKV (corrStep st1 (.register K T)).cbs K = some T := by
    rw [corrStep]
    exact lookup_setKV_self _ _ _
  have hnd2 : ((corrStep st1 (.register K T)).cbs.map Prod.fst).Nodup :=
    nodup_corrStep st1 _ a2
  have hlog2 : invocations K (corrStep st1 (.register K T)).log = 0 := by
    rw [corrStep]
    simp only
    rw [a3]
    simp [invocations]
  obtain ⟨f1, f2⟩ := corr_timeout_fires es2 (corrStep st1 (.register K T)) K T
    hlk2 hnd2 hreg2 hrep tS hsw htS
  refine ⟨?_, ?_, ?_⟩
  · obtain ⟨t', ht1, ht2⟩ := f1
    refine ⟨t', by omega, ?_⟩
    rw [hsplit es2]
    exact ht2
  · rw [hsplit es2]
    exact f2
  · intro g2 hg2
    have := corr_present_run g2 (corrStep st1 (.register K T)) K T hlk2 hnd2 hg2
    rw [hsplit g2]
    omega

/-- C2 — witness: key `"k"` registered at clock 0 from the empty initial
state, followed by a single sweep at clock 300001 (> 5 minutes later). -/
theorem pending_call_timeout_witness :
    (∀ t, CorrEvent.register "k" t ∉ ([] : List CorrEvent))
    ∧ (∀ t, CorrEvent.register "k" t ∉ [CorrEvent.sweep 300001])
    ∧ (∀ a, CorrEvent.msg (some "k") a ∉ [CorrEvent.sweep 300001])
    ∧ CorrEvent.sweep 300001 ∈ [CorrEvent.sweep 300001]
    ∧ 0 + 300000 < 300001
    ∧ ((∃ t', 0 + 300000 ≤ t' ∧
        ("k", CbArg.timeout t') ∈ (corrRun ⟨[], []⟩
          ([] ++ CorrEvent.register "k" 0 :: [CorrEvent.sweep 300001])).log)
      ∧ lookupKV (corrRun ⟨[], []⟩
          ([] ++ CorrEvent.register "k" 0 :: [CorrEvent.sweep 300001])).cbs "k" = none
      ∧ (∀ f2 : List CorrEvent, (∀ t, CorrEvent.register "k" t ∉ f2) →
          invocations "k" (corrRun ⟨[], []⟩
            ([] ++ CorrEvent.register "k" 0 :: f2)).log ≤ 1)) :=
  ⟨fun t h => (List.not_mem_nil _ h),
   fun t h => by simp at h,
   fun a h => by simp at h,
   List.Mem.head _,
   by omega,
   pending_call_timeout [] [CorrEvent.sweep 300001] "k" 0 300001
     (fun t h => (List.not_mem_nil _ h))
     (fun t h => by simp at h)
     (fun a h => by simp at h)
     (List.Mem.head _)
     (by omega)⟩
